import Mathlib

/-!
Shallow embedding of the parsing core of the `compiler` repository
(`src/compiler/parser.py` and
`src/compiler/language_models/argument_list.py`), together with theorems
settling the specification claims about it.

Conventions of the embedding:
* Python `None` returned from a `parse` classmethod becomes `Option.none`
  (or a dedicated sentinel constructor where the engine distinguishes it).
* A raised exception becomes an `Except.error` value.
* Machine strings are Lean `String`s; the regex `^( *)(\s*)` of
  `_measure_block_depth` is embedded by the explicit group computations
  `spaceRunLen` / `wsRunLen`.
-/

namespace Compiler

/-- One character of the regex class `\s`, restricted to its ASCII range
(the source lines of the language are lines of text without embedded
newlines). -/
def pyIsSpace (c : Char) : Bool :=
  c = ' ' || c = '\t' || c = '\n' || c = '\x0b' || c = '\x0c' || c = '\r'

/-- Length of the maximal run of `' '` at the head of a character list:
group 1 of the indentation regex `^( *)(\s*)`. -/
def spaceRunLen : List Char → Nat
  | [] => 0
  | c :: cs => if c = ' ' then spaceRunLen cs + 1 else 0

/-- Length of the maximal run of `\s` characters at the head of a character
list: used for group 2 of the indentation regex. -/
def wsRunLen : List Char → Nat
  | [] => 0
  | c :: cs => if pyIsSpace c then wsRunLen cs + 1 else 0

/-- The span attributes carried by every `Token`
(`first_line`, `next_line`, `first_column`, `next_column`). -/
structure TokenData where
  first_line : Nat
  next_line : Nat
  first_column : Nat
  next_column : Nat
  deriving Repr, DecidableEq

/-- The leaf symbols produced by the token rules of `parser.py`.
`BeginBlock` and `EndBlock` additionally carry their `block_depth`
attribute. -/
inductive Symbol where
  | endFile (tok : TokenData)
  | blankLine (tok : TokenData)
  | endLine (tok : TokenData)
  | beginBlock (tok : TokenData) (block_depth : Nat)
  | endBlock (tok : TokenData) (block_depth : Nat)
  deriving Repr, DecidableEq

/-- The immutable parse cursor (`class Parser` of `parser.py`). -/
structure Parser where
  lines : List String
  line : Nat := 0
  column : Nat := 0
  last_symbol : Option Symbol := none
  block_depth : Nat := 0
  deriving Repr, DecidableEq

/-- `Parser.line_text` (with its default argument `line=None`): the current
line's text, or `''` when the line index is out of range. -/
def Parser.line_text (p : Parser) : String :=
  if p.line < p.lines.length then p.lines.getD p.line "" else ""

/-- `Parser.last_line`: `max(0, len(self._lines) - 1)`. -/
def Parser.last_line (p : Parser) : Nat :=
  max 0 (p.lines.length - 1)

/-- The span data of a symbol.  Every `Symbol` of this embedding is a
`Token`, so the `isinstance(symbol, Token)` test of `new_from_symbol` is
always true here. -/
def Symbol.tok : Symbol → TokenData
  | .endFile t => t
  | .blankLine t => t
  | .endLine t => t
  | .beginBlock t _ => t
  | .endBlock t _ => t

/-- The `block_depth` carried by `BeginBlock`/`EndBlock` symbols; `none` for
the other symbols (the `isinstance(symbol, (BeginBlock, EndBlock))` test of
`new_from_symbol`). -/
def Symbol.blockDepthOf : Symbol → Option Nat
  | .beginBlock _ d => some d
  | .endBlock _ d => some d
  | _ => none

/-- `Parser.new_from_symbol`: a new parser from an existing parser and a
symbol.  The advanced line index is clamped to `last_line + 1` ("only allow
one extra line"). -/
def Parser.new_from_symbol (p : Parser) (symbol : Symbol) : Parser :=
  { lines := p.lines
    line := min (Symbol.tok symbol).next_line (p.last_line + 1)
    column := (Symbol.tok symbol).next_column
    last_symbol := some symbol
    block_depth :=
      match Symbol.blockDepthOf symbol with
      | some d => d
      | none => p.block_depth }

/-- `class IndentationError(ParseError)`: a message plus the exact
`(line, column)` of the offending character. -/
structure IndentationError where
  message : String
  line : Nat
  column : Nat
  deriving Repr, DecidableEq

/-- Group 1 of the indentation regex `^( *)(\s*)` applied to the current
line: the number of leading space characters. -/
def leading_space_count (p : Parser) : Nat :=
  spaceRunLen (p.line_text).data

/-- Length of group 2 of the indentation regex applied to the current line:
the run of whitespace right after the leading spaces.  It is non-empty
exactly when the line's leading whitespace holds a whitespace character
other than `' '`, and that first such character sits at index
`leading_space_count p`. -/
def other_ws_count (p : Parser) : Nat :=
  wsRunLen ((p.line_text).data.drop (leading_space_count p))

/-- `_measure_block_depth`: measure the block depth for the current line,
raising (`Except.error`) on bad indentation.  When group 2 is empty,
`match.end()` equals the number of leading spaces, so `indentation` is
`leading_space_count p`. -/
def _measure_block_depth (p : Parser) : Except IndentationError Nat :=
  if other_ws_count p ≠ 0 then
    .error ⟨"each block must be indented four spaces (other whitespace found)",
            p.line, leading_space_count p⟩
  else
    let indentation := leading_space_count p
    let block_depth := indentation / 4
    let remainder := indentation % 4
    if remainder ≠ 0 then
      .error ⟨"each block must be indented four spaces (extra spaces found)",
              p.line, block_depth * 4⟩
    else if p.block_depth + 1 < block_depth then
      .error ⟨"each block must be indented four spaces (block over-indented)",
              p.line, (p.block_depth + 1) * 4⟩
    else
      .ok block_depth

/-- `EndFile.parse`: matches once the cursor is at or past the last line and
at or past the end of that line's text; zero width. -/
def EndFile.parse (p : Parser) : Option Parser :=
  if p.line ≥ p.last_line then
    if p.column ≥ (p.line_text).length then
      some (p.new_from_symbol (.endFile ⟨p.line, p.line, p.column, p.column⟩))
    else none
  else none

/-- `BlankLine.parse`: matches at column 0 when the whole line strips to
`''` (every character is whitespace); advances to the next line. -/
def BlankLine.parse (p : Parser) : Option Parser :=
  if p.column ≠ 0 then none
  else if (p.line_text).data.all pyIsSpace then
    some (p.new_from_symbol (.blankLine ⟨p.line, p.line + 1, 0, 0⟩))
  else none

/-- `EndLine.parse`: matches when the column is at or past the end of the
current line's text; advances to the next line, column 0. -/
def EndLine.parse (p : Parser) : Option Parser :=
  if p.column ≥ (p.line_text).length then
    some (p.new_from_symbol (.endLine ⟨p.line, p.line + 1, p.column, 0⟩))
  else none

/-- `BeginBlock.parse`: at column 0, succeeds when the measured depth is
strictly greater than the current block depth; the new block depth only
ever increases by one.  An `IndentationError` from `_measure_block_depth`
propagates. -/
def BeginBlock.parse (p : Parser) : Except IndentationError (Option Parser) :=
  if p.column ≠ 0 then .ok none
  else
    match _measure_block_depth p with
    | .error e => .error e
    | .ok depth =>
      if p.block_depth < depth then
        .ok (some (p.new_from_symbol
          (.beginBlock ⟨p.line, p.line, p.column, p.column⟩ (p.block_depth + 1))))
      else .ok none

/-- `EndBlock.parse`: at column 0, succeeds when the measured depth is
strictly less than the current block depth; the block depth only ever
decreases by one at a time, and the token is zero width so it can match
again at the same position. -/
def EndBlock.parse (p : Parser) : Except IndentationError (Option Parser) :=
  if p.column ≠ 0 then .ok none
  else
    match _measure_block_depth p with
    | .error e => .error e
    | .ok depth =>
      if depth < p.block_depth then
        .ok (some (p.new_from_symbol
          (.endBlock ⟨p.line, p.line, p.column, p.column⟩ (p.block_depth - 1))))
      else .ok none

/-- The `ParseError` hierarchy: `NoMatchError` (carrying the cursor and the
ordered expected symbols, identified by their class names), the
`IndentationError` subclass, and the plain `ParseError` raised with a
message by `ArgumentList.parse`. -/
inductive ParseError where
  | noMatch (cursor : Parser) (expected_symbols : List String)
  | indentation (e : IndentationError)
  | argList (message : String)
  deriving Repr, DecidableEq

/-- Only `NoMatchError` is caught by the `except NoMatchError` clause of
`Parser.parse`; every other `ParseError` propagates (a hard error). -/
def ParseError.isHard : ParseError → Bool
  | .noMatch _ _ => false
  | .indentation _ => true
  | .argList _ => true

/-- The outcome of one candidate's parse attempt: a returned cursor, the
returned `None` sentinel, or a raised `ParseError`. -/
inductive ParseResult where
  | matched (p : Parser)
  | noMatchSentinel
  | raised (e : ParseError)
  deriving Repr, DecidableEq

/-- A soft failure: the candidate returned the `None` sentinel or raised a
`NoMatchError`; both mean "try the next candidate". -/
def ParseResult.isSoftFail : ParseResult → Bool
  | .matched _ => false
  | .noMatchSentinel => true
  | .raised e => !e.isHard

/-- A candidate grammar rule: the Python symbol class, as its kind (class
name) together with its `parse` classmethod. -/
structure Rule where
  kind : String
  parse : Parser → ParseResult

/-- The loop of `Parser.parse`: try each candidate in order.  `expected` is
the full `one_of` list (by kind) recorded in the aggregated
`NoMatchError`; a candidate's `NoMatchError` (whether re-raised wrapped on
the last candidate or swallowed earlier) and the `None` sentinel both lead
to the next candidate, while any other `ParseError` propagates at once. -/
def parseLoop (self : Parser) (expected : List String) : List Rule → ParseResult
  | [] => .raised (.noMatch self expected)
  | r :: rest =>
    match r.parse self with
    | .matched q => .matched q
    | .noMatchSentinel => parseLoop self expected rest
    | .raised e => if e.isHard then .raised e else parseLoop self expected rest

/-- `Parser.parse`: ordered alternation over the candidate symbols,
returning after the first success, raising an aggregated `NoMatchError`
holding the original cursor and `one_of` when every candidate fails. -/
def Parser.parse (self : Parser) (one_of : List Rule) : ParseResult :=
  parseLoop self (one_of.map Rule.kind) one_of

/-- One declared parameter (`class Argument`).  The underlying variable of
the external expression grammar is abstracted to an identifier. -/
structure Argument where
  var : Nat
  is_positional : Bool := false
  is_keyword : Bool := false
  is_extra : Bool := false
  deriving Repr, DecidableEq

/-- Which of the ordered candidates `[Characters['**'], Characters['*'],
Characters['/'], Always]` matched at the head of one iteration of the
`ArgumentList.parse` loop (`Always` is the zero-width fallback). -/
inductive Marker where
  | doubleStar
  | star
  | slash
  | always
  deriving Repr, DecidableEq

/-- One iteration's worth of input to the `ArgumentList.parse` loop: the
marker matched by `parse_one_symbol`, the result of
`expression.Variable.parse` right after the marker, and whether the
trailing `parse_one_symbol([Characters[','], Always])` matched a comma.
The cursor and the external `Characters`/`Always`/`Variable` grammars
(which live outside the parsing core) are abstracted into this event
stream. -/
structure Step where
  marker : Marker
  varName : Option Nat
  comma : Bool
  deriving Repr, DecidableEq

/-- The loop state of `ArgumentList.parse`: the growable argument list and
the four `saw_*` flags, all starting false. -/
structure ALState where
  arguments : List Argument
  saw_end_position_only_marker : Bool
  saw_begin_keyword_only_marker : Bool
  saw_extra_positionals : Bool
  saw_extra_keywords : Bool
  deriving Repr, DecidableEq

/-- One iteration of the `ArgumentList.parse` loop body, up to (but not
including) the trailing comma check.  `.ok none` is the `break` of the
"no more arguments to parse" branch, `.ok (some st)` continues to the comma
check, and `.error` is a raised `ParseError`. -/
def stepOne (st : ALState) (step : Step) : Except ParseError (Option ALState) :=
  match step.marker with
  | .star =>
    match step.varName with
    | some v =>
      if st.saw_extra_positionals then
        .error (.argList "multiple \"extra positional\" arguments found")
      else
        let st := { st with
          saw_extra_positionals := true,
          arguments := st.arguments ++ [(⟨v, true, false, true⟩ : Argument)] }
        if st.saw_begin_keyword_only_marker then
          .error (.argList "multiple \"begin keyword-only\" markers found")
        else
          .ok (some { st with saw_begin_keyword_only_marker := true })
    | none =>
      if st.saw_begin_keyword_only_marker then
        .error (.argList "multiple \"begin keyword-only\" markers found")
      else
        .ok (some { st with saw_begin_keyword_only_marker := true })
  | .doubleStar =>
    match step.varName with
    | none => .error (.argList "expected Variable")
    | some v =>
      if st.saw_extra_keywords then
        .error (.argList "multiple \"extra keyword\" arguments found")
      else
        .ok (some { st with
          saw_extra_keywords := true,
          arguments := st.arguments ++ [(⟨v, false, true, true⟩ : Argument)] })
  | .slash =>
    if st.saw_end_position_only_marker then
      .error (.argList "multiple \"end position-only\" markers found")
    else if st.saw_begin_keyword_only_marker then
      .error (.argList "\"end position-only\" marker found after \"begin keyword-only\" marker")
    else
      .ok (some { st with
        saw_end_position_only_marker := true,
        arguments := st.arguments.map fun a =>
          if a.is_extra then a else (⟨a.var, true, false, false⟩ : Argument) })
  | .always =>
    match step.varName with
    | some v =>
      .ok (some { st with
        arguments := st.arguments ++
          [(⟨v, !st.saw_begin_keyword_only_marker, true, false⟩ : Argument)] })
    | none => .ok none

/-- The `while True` loop of `ArgumentList.parse`: run `stepOne` per
iteration, stopping after an iteration whose trailing comma check matched
`Always` instead of a comma (in the real code the loop always terminates
through one of the `break`s; an exhausted event stream is read as the
zero-width fallback with no variable). -/
def parseSteps : ALState → List Step → Except ParseError (List Argument)
  | st, [] => .ok st.arguments
  | st, step :: rest =>
    match stepOne st step with
    | .error e => .error e
    | .ok none => .ok st.arguments
    | .ok (some st1) =>
      if step.comma then parseSteps st1 rest else .ok st1.arguments

/-- `ArgumentList.parse` over the abstract event stream, starting from an
empty argument list with all four `saw_*` flags false. -/
def ArgumentList.parse (steps : List Step) : Except ParseError (List Argument) :=
  parseSteps ⟨[], false, false, false, false⟩ steps

/-- Lexicographic comparison of the (line, column) positions of two
cursors. -/
def posLe (p q : Parser) : Prop :=
  p.line < q.line ∨ (p.line = q.line ∧ p.column ≤ q.column)

instance (p q : Parser) : Decidable (posLe p q) := by
  unfold posLe
  infer_instance

/-! ## Helper lemmas about the cursor -/

theorem Parser.last_line_eq (p : Parser) : p.last_line = p.lines.length - 1 := by
  unfold Parser.last_line
  exact Nat.max_eq_right (Nat.zero_le _)

theorem line_text_eq_empty (p : Parser) (h : p.lines.length ≤ p.line) :
    p.line_text = "" := by
  unfold Parser.line_text
  rw [if_neg (by omega)]

theorem new_from_symbol_line (p : Parser) (s : Symbol) :
    (p.new_from_symbol s).line = min (Symbol.tok s).next_line (p.last_line + 1) := rfl

theorem new_from_symbol_column (p : Parser) (s : Symbol) :
    (p.new_from_symbol s).column = (Symbol.tok s).next_column := rfl

/-! ## Helper lemmas about the ordered-alternation loop -/

theorem parseLoop_cons_soft (self : Parser) (expected : List String) (r : Rule)
    (rest : List Rule) (h : (r.parse self).isSoftFail = true) :
    parseLoop self expected (r :: rest) = parseLoop self expected rest := by
  cases hp : r.parse self with
  | matched q => simp [ParseResult.isSoftFail, hp] at h
  | noMatchSentinel => simp [parseLoop, hp]
  | raised e =>
    have he : e.isHard = false := by simpa [ParseResult.isSoftFail, hp] using h
    simp [parseLoop, hp, he]

theorem parseLoop_first_success (self : Parser) (expected : List String)
    (l : List Rule) :
    ∀ (i : Nat) (hi : i < l.length) (q : Parser),
      (∀ j (hj : j < i), ((l.get ⟨j, Nat.lt_trans hj hi⟩).parse self).isSoftFail = true) →
      (l.get ⟨i, hi⟩).parse self = .matched q →
      parseLoop self expected l = .matched q := by
  induction l with
  | nil => intro i hi; exact absurd hi (by simp)
  | cons r rest ih =>
    intro i hi q hsoft hmatch
    cases i with
    | zero =>
      have hr : r.parse self = .matched q := hmatch
      simp [parseLoop, hr]
    | succ i =>
      have h0 : (r.parse self).isSoftFail = true := hsoft 0 (Nat.succ_pos _)
      rw [parseLoop_cons_soft self expected r rest h0]
      exact ih i (Nat.lt_of_succ_lt_succ hi) q
        (fun j hj => hsoft (j + 1) (Nat.succ_lt_succ hj)) hmatch

theorem parseLoop_all_soft (self : Parser) (expected : List String)
    (l : List Rule) (h : ∀ r ∈ l, (r.parse self).isSoftFail = true) :
    parseLoop self expected l = .raised (.noMatch self expected) := by
  induction l with
  | nil => rfl
  | cons r rest ih =>
    rw [parseLoop_cons_soft self expected r rest (h r (List.mem_cons_self r rest))]
    exact ih fun r' hr' => h r' (List.mem_cons_of_mem _ hr')

theorem parseLoop_hard_stops (self : Parser) (expected : List String)
    (l : List Rule) :
    ∀ (i : Nat) (hi : i < l.length) (e : ParseError),
      (∀ j (hj : j < i), ((l.get ⟨j, Nat.lt_trans hj hi⟩).parse self).isSoftFail = true) →
      (l.get ⟨i, hi⟩).parse self = .raised e →
      e.isHard = true →
      parseLoop self expected l = .raised e := by
  induction l with
  | nil => intro i hi; exact absurd hi (by simp)
  | cons r rest ih =>
    intro i hi e hsoft hraise hhard
    cases i with
    | zero =>
      have hr : r.parse self = .raised e := hraise
      simp [parseLoop, hr, hhard]
    | succ i =>
      have h0 : (r.parse self).isSoftFail = true := hsoft 0 (Nat.succ_pos _)
      rw [parseLoop_cons_soft self expected r rest h0]
      exact ih i (Nat.lt_of_succ_lt_succ hi) e
        (fun j hj => hsoft (j + 1) (Nat.succ_lt_succ hj)) hraise hhard

/-! ## Claims about the ordered-alternation engine -/

/-- C1: for every cursor and every ordered non-empty list of candidate
symbol rules, `Parser.parse` tries the candidates in list order and returns
the result of the first candidate that succeeds; a candidate that returns
the no-match sentinel or raises a no-match error is skipped, so the result
is never that of a later candidate when an earlier one succeeds. -/
theorem parse_first_success (self : Parser) (one_of : List Rule) (i : Nat)
    (hi : i < one_of.length) (q : Parser)
    (hsoft : ∀ j (hj : j < i),
      ((one_of.get ⟨j, Nat.lt_trans hj hi⟩).parse self).isSoftFail = true)
    (hmatch : (one_of.get ⟨i, hi⟩).parse self = .matched q) :
    Parser.parse self one_of = .matched q :=
  parseLoop_first_success self (one_of.map Rule.kind) one_of i hi q hsoft hmatch

/-- C1 witness: with a soft-failing first candidate and a succeeding second
candidate, the engine returns the second candidate's result. -/
theorem parse_first_success_witness :
    Parser.parse ⟨["x"], 0, 0, none, 0⟩
      [⟨"Soft", fun _ => .noMatchSentinel⟩,
       ⟨"Id", fun p => .matched p⟩,
       ⟨"Other", fun _ => .matched ⟨[], 9, 9, none, 9⟩⟩] =
      .matched ⟨["x"], 0, 0, none, 0⟩ :=
  parse_first_success ⟨["x"], 0, 0, none, 0⟩ _ 1 (by decide) _
    (fun j hj => by
      have hj0 : j = 0 := Nat.lt_one_iff.mp hj
      subst hj0
      rfl)
    rfl

/-- C5: for every cursor and every ordered candidate list, if every
candidate fails softly (returns the no-match sentinel or raises a no-match
error), `Parser.parse` raises a `NoMatchError` carrying the original input
cursor and the full ordered list of attempted candidate rule kinds. -/
theorem parse_all_fail (self : Parser) (one_of : List Rule)
    (hsoft : ∀ r ∈ one_of, (r.parse self).isSoftFail = true) :
    Parser.parse self one_of = .raised (.noMatch self (one_of.map Rule.kind)) :=
  parseLoop_all_soft self (one_of.map Rule.kind) one_of hsoft

/-- C5 witness: two softly failing candidates (one returning the sentinel,
one raising a nested no-match error) yield the aggregated `NoMatchError`
with the original cursor and both kinds, in order. -/
theorem parse_all_fail_witness :
    Parser.parse ⟨["x"], 0, 0, none, 0⟩
      [⟨"Soft", fun _ => .noMatchSentinel⟩,
       ⟨"Nested", fun p => .raised (.noMatch p ["Inner"])⟩] =
      .raised (.noMatch ⟨["x"], 0, 0, none, 0⟩ ["Soft", "Nested"]) :=
  parse_all_fail ⟨["x"], 0, 0, none, 0⟩ _
    (fun r hr => by
      simp only [List.mem_cons, List.not_mem_nil, or_false] at hr
      rcases hr with rfl | rfl <;> rfl)

/-- C6: for every cursor and candidate list, if the candidates before index
`i` fail softly and candidate `i` raises a hard parse error (an
`IndentationError` or an argument-list `ParseError`), `Parser.parse`
propagates that error unchanged; later candidates never affect the result
(the list beyond index `i` is arbitrary here). -/
theorem parse_hard_error_propagates (self : Parser) (one_of : List Rule)
    (i : Nat) (hi : i < one_of.length) (e : ParseError)
    (hsoft : ∀ j (hj : j < i),
      ((one_of.get ⟨j, Nat.lt_trans hj hi⟩).parse self).isSoftFail = true)
    (hraise : (one_of.get ⟨i, hi⟩).parse self = .raised e)
    (he : (∃ ie, e = .indentation ie) ∨ (∃ m, e = .argList m)) :
    Parser.parse self one_of = .raised e := by
  have hhard : e.isHard = true := by
    rcases he with ⟨ie, rfl⟩ | ⟨m, rfl⟩ <;> rfl
  exact parseLoop_hard_stops self (one_of.map Rule.kind) one_of i hi e hsoft hraise hhard

/-- C6 witness: a soft candidate, then a hard-raising candidate, then a
candidate that would match: the hard error comes out, not the later
match. -/
theorem parse_hard_error_propagates_witness :
    Parser.parse ⟨["x"], 0, 0, none, 0⟩
      [⟨"Soft", fun _ => .noMatchSentinel⟩,
       ⟨"Hard", fun _ => .raised (.argList "expected Variable")⟩,
       ⟨"Id", fun p => .matched p⟩] =
      .raised (.argList "expected Variable") :=
  parse_hard_error_propagates ⟨["x"], 0, 0, none, 0⟩ _ 1 (by decide) _
    (fun j hj => by
      have hj0 : j = 0 := Nat.lt_one_iff.mp hj
      subst hj0
      rfl)
    rfl
    (Or.inr ⟨"expected Variable", rfl⟩)

/-! ## Claims about the block tokens and the indentation tokenizer -/

/-- C3: for every cursor at column 0 (whose line index respects the
data-model clamp of at most one past the last real line), a successful
`BeginBlock` match yields a cursor whose block depth is exactly the old
depth plus one, and a successful `EndBlock` match yields a cursor whose
block depth is exactly the old depth minus one, regardless of the raw
indentation delta; both tokens are zero width: the resulting line and
column equal the input's, so a multi-level dedent is consumed by repeated
`EndBlock` matches at the same position. -/
theorem block_token_depth_step (p : Parser) (hcol : p.column = 0)
    (hline : p.line ≤ p.last_line + 1) :
    (∀ q, BeginBlock.parse p = .ok (some q) →
      q.block_depth = p.block_depth + 1 ∧ q.line = p.line ∧ q.column = p.column) ∧
    (∀ q, EndBlock.parse p = .ok (some q) →
      p.block_depth = q.block_depth + 1 ∧ q.line = p.line ∧ q.column = p.column) := by
  constructor
  · intro q hq
    unfold BeginBlock.parse at hq
    rw [if_neg (by simp [hcol])] at hq
    split at hq
    · exact absurd hq (by simp)
    · split at hq
      · rw [Except.ok.injEq, Option.some.injEq] at hq
        subst hq
        refine ⟨rfl, ?_, rfl⟩
        exact Nat.min_eq_left hline
      · exact absurd hq (by simp)
  · intro q hq
    unfold EndBlock.parse at hq
    rw [if_neg (by simp [hcol])] at hq
    split at hq
    · exact absurd hq (by simp)
    · split at hq
      · rename_i depth hdepth
        rw [Except.ok.injEq, Option.some.injEq] at hq
        subst hq
        refine ⟨?_, ?_, rfl⟩
        · show p.block_depth = p.block_depth - 1 + 1
          omega
        · exact Nat.min_eq_left hline
      · exact absurd hq (by simp)

/-- C3 witness: a line indented four spaces at depth 0 begins a block of
depth 1 in place; an unindented line at depth 1 ends one block in place. -/
theorem block_token_depth_step_witness :
    (⟨["    x"], 0, 0, some (.beginBlock ⟨0, 0, 0, 0⟩ 1), 1⟩ : Parser).block_depth =
        (⟨["    x"], 0, 0, none, 0⟩ : Parser).block_depth + 1 ∧
    (⟨["x"], 0, 0, none, 1⟩ : Parser).block_depth =
        (⟨["x"], 0, 0, some (.endBlock ⟨0, 0, 0, 0⟩ 0), 0⟩ : Parser).block_depth + 1 :=
  ⟨((block_token_depth_step ⟨["    x"], 0, 0, none, 0⟩ rfl (by decide)).1
      ⟨["    x"], 0, 0, some (.beginBlock ⟨0, 0, 0, 0⟩ 1), 1⟩ rfl).1,
   ((block_token_depth_step ⟨["x"], 0, 0, none, 1⟩ rfl (by decide)).2
      ⟨["x"], 0, 0, some (.endBlock ⟨0, 0, 0, 0⟩ 0), 0⟩ rfl).1⟩

/-- C9: each of the five token rules, on any cursor satisfying the
data-model invariants (line clamped to at most one past the last real line,
column bounded by the current line's length), only ever succeeds with a
cursor whose (line, column) is lexicographically ≥ the input's. -/
theorem token_rules_monotonic (p : Parser) (hline : p.line ≤ p.last_line + 1)
    (hcol : p.column ≤ (p.line_text).length) :
    (∀ q, EndFile.parse p = some q → posLe p q) ∧
    (∀ q, BlankLine.parse p = some q → posLe p q) ∧
    (∀ q, EndLine.parse p = some q → posLe p q) ∧
    (∀ q, BeginBlock.parse p = .ok (some q) → posLe p q) ∧
    (∀ q, EndBlock.parse p = .ok (some q) → posLe p q) := by
  refine ⟨?_, ?_, ?_, ?_, ?_⟩
  · intro q hq
    unfold EndFile.parse at hq
    split at hq
    · split at hq
      · rw [Option.some.injEq] at hq
        subst hq
        right
        exact ⟨(Nat.min_eq_left hline).symm, Nat.le_refl _⟩
      · exact absurd hq (by simp)
    · exact absurd hq (by simp)
  · intro q hq
    unfold BlankLine.parse at hq
    split at hq
    · exact absurd hq (by simp)
    · rename_i hcol0
      split at hq
      · rw [Option.some.injEq] at hq
        subst hq
        unfold posLe
        rw [new_from_symbol_line, new_from_symbol_column]
        simp only [Symbol.tok]
        omega
      · exact absurd hq (by simp)
  · intro q hq
    unfold EndLine.parse at hq
    split at hq
    · rw [Option.some.injEq] at hq
      subst hq
      unfold posLe
      rw [new_from_symbol_line, new_from_symbol_column]
      simp only [Symbol.tok]
      by_cases hle : p.line ≤ p.last_line
      · omega
      · have hpl : p.line = p.last_line + 1 := by omega
        have hempty : p.line_text = "" := by
          refine line_text_eq_empty p ?_
          rw [Parser.last_line_eq] at hpl
          omega
        rw [hempty] at hcol
        simp at hcol
        omega
    · exact absurd hq (by simp)
  · intro q hq
    unfold BeginBlock.parse at hq
    split at hq
    · exact absurd hq (by simp)
    · rename_i hcol0
      split at hq
      · exact absurd hq (by simp)
      · split at hq
        · rw [Except.ok.injEq, Option.some.injEq] at hq
          subst hq
          right
          exact ⟨(Nat.min_eq_left hline).symm, Nat.le_refl _⟩
        · exact absurd hq (by simp)
  · intro q hq
    unfold EndBlock.parse at hq
    split at hq
    · exact absurd hq (by simp)
    · rename_i hcol0
      split at hq
      · exact absurd hq (by simp)
      · split at hq
        · rw [Except.ok.injEq, Option.some.injEq] at hq
          subst hq
          right
          exact ⟨(Nat.min_eq_left hline).symm, Nat.le_refl _⟩
        · exact absurd hq (by simp)

/-- C9 witness: `EndLine` at the end of the last line's text moves the
cursor strictly forward (to the next line, column 0). -/
theorem token_rules_monotonic_witness :
    (⟨["ab"], 0, 2, none, 0⟩ : Parser).line ≤ (⟨["ab"], 0, 2, none, 0⟩ : Parser).last_line + 1 ∧
    (⟨["ab"], 0, 2, none, 0⟩ : Parser).column ≤ ((⟨["ab"], 0, 2, none, 0⟩ : Parser).line_text).length ∧
    posLe ⟨["ab"], 0, 2, none, 0⟩ ⟨["ab"], 1, 0, some (.endLine ⟨0, 1, 2, 0⟩), 0⟩ :=
  ⟨by decide, by decide,
   (token_rules_monotonic ⟨["ab"], 0, 2, none, 0⟩ (by decide) (by decide)).2.2.1
     ⟨["ab"], 1, 0, some (.endLine ⟨0, 1, 2, 0⟩), 0⟩ rfl⟩

/-- C10: for every parser at the clamped maximum line index (one past the
last real line) and column 0, `EndLine.parse` still succeeds — the
out-of-range line reads as the empty string — and, because
`new_from_symbol` clamps the advanced line index back, the returned parser
has exactly the same line index, column and block depth as the input. -/
theorem endline_no_progress_at_eof (p : Parser) (hline : p.line = p.last_line + 1)
    (hcol : p.column = 0) :
    p.line_text = "" ∧
    EndLine.parse p = some
      { lines := p.lines, line := p.line, column := p.column,
        last_symbol := some (.endLine ⟨p.line, p.line + 1, p.column, 0⟩),
        block_depth := p.block_depth } := by
  have hlen : p.lines.length ≤ p.line := by
    have h := p.last_line_eq
    omega
  have htext : p.line_text = "" := line_text_eq_empty p hlen
  refine ⟨htext, ?_⟩
  unfold EndLine.parse
  rw [if_pos (by rw [htext]; exact Nat.zero_le _)]
  unfold Parser.new_from_symbol
  have hmin : min (p.line + 1) (p.last_line + 1) = p.line := by omega
  simp [Symbol.tok, Symbol.blockDepthOf, hmin, hcol]

/-- C10 witness: on a one-line file, a cursor at line index 1 (one past the
last real line), column 0, block depth 3 matches `EndLine` and gets back
the very same position and depth. -/
theorem endline_no_progress_at_eof_witness :
    (⟨["ab"], 1, 0, none, 3⟩ : Parser).line_text = "" ∧
    EndLine.parse ⟨["ab"], 1, 0, none, 3⟩ =
      some ⟨["ab"], 1, 0, some (.endLine ⟨1, 2, 0, 0⟩), 3⟩ :=
  endline_no_progress_at_eof ⟨["ab"], 1, 0, none, 3⟩ (by decide) rfl

/-- C4: `_measure_block_depth` raises a fatal `IndentationError` if and
only if the current line's leading whitespace (a) holds a non-space
whitespace character (checked first; message "other whitespace found",
column = the index of the first such character, i.e. the leading-space
count), or (b) has a leading-space count that is not a multiple of four
(message "extra spaces found", column = the largest multiple of four below
the count), or (c) implies a depth more than one above the cursor's block
depth (message "block over-indented", column = `(block_depth + 1) * 4`);
otherwise it returns the leading-space count divided by four. -/
theorem measure_block_depth_spec (p : Parser) :
    ((∃ e, _measure_block_depth p = .error e) ↔
      (0 < other_ws_count p ∨ leading_space_count p % 4 ≠ 0 ∨
        p.block_depth + 1 < leading_space_count p / 4)) ∧
    (0 < other_ws_count p →
      _measure_block_depth p =
        .error ⟨"each block must be indented four spaces (other whitespace found)",
                p.line, leading_space_count p⟩) ∧
    (other_ws_count p = 0 → leading_space_count p % 4 ≠ 0 →
      _measure_block_depth p =
        .error ⟨"each block must be indented four spaces (extra spaces found)",
                p.line, leading_space_count p / 4 * 4⟩) ∧
    (other_ws_count p = 0 → leading_space_count p % 4 = 0 →
        p.block_depth + 1 < leading_space_count p / 4 →
      _measure_block_depth p =
        .error ⟨"each block must be indented four spaces (block over-indented)",
                p.line, (p.block_depth + 1) * 4⟩) ∧
    (other_ws_count p = 0 → leading_space_count p % 4 = 0 →
        ¬ p.block_depth + 1 < leading_space_count p / 4 →
      _measure_block_depth p = .ok (leading_space_count p / 4)) := by
  unfold _measure_block_depth
  by_cases hA : other_ws_count p = 0
  · by_cases hB : leading_space_count p % 4 = 0
    · by_cases hC : p.block_depth + 1 < leading_space_count p / 4
      · simp [hA, hB, hC]
      · simp [hA, hB, hC]
    · simp [hA, hB]
  · simp [hA, Nat.pos_of_ne_zero hA]

/-- C4 witness: a line starting with two spaces and a tab fails with the
"other whitespace found" error at column 2. -/
theorem measure_block_depth_spec_witness :
    0 < other_ws_count ⟨["  \tx"], 0, 0, none, 0⟩ ∧
    _measure_block_depth ⟨["  \tx"], 0, 0, none, 0⟩ =
      .error ⟨"each block must be indented four spaces (other whitespace found)", 0, 2⟩ :=
  ⟨by decide,
   (measure_block_depth_spec ⟨["  \tx"], 0, 0, none, 0⟩).2.1 (by decide)⟩

/-! ## Claims about the argument-list grammar -/

/-- C2: in `ArgumentList.parse`, a matched `/` marker is a fatal parse
error if a `/` was already seen or keyword-only mode was already opened;
otherwise every argument appended so far whose `is_extra` flag is false is
rewritten to positional-only (`is_positional = true`, `is_keyword = false`,
extras unchanged), and slash is the only marker that alters previously
appended arguments (every other step only appends).  Parsing `a, /, b`
(variables abstracted as 0 and 1) yields `a` positional-only and `b`
positional+keyword. -/
theorem slash_marker_spec :
    (∀ (st : ALState) (step : Step), step.marker = .slash →
      (st.saw_end_position_only_marker = true ∨ st.saw_begin_keyword_only_marker = true) →
      ∃ m, stepOne st step = .error (.argList m)) ∧
    (∀ (st : ALState) (step : Step), step.marker = .slash →
      st.saw_end_position_only_marker = false →
      st.saw_begin_keyword_only_marker = false →
      stepOne st step = .ok (some { st with
        saw_end_position_only_marker := true,
        arguments := st.arguments.map fun a =>
          if a.is_extra then a else (⟨a.var, true, false, false⟩ : Argument) })) ∧
    (∀ (st st' : ALState) (step : Step), step.marker ≠ .slash →
      stepOne st step = .ok (some st') →
      ∃ tail, st'.arguments = st.arguments ++ tail) ∧
    ArgumentList.parse
        [⟨.always, some 0, true⟩, ⟨.slash, none, true⟩, ⟨.always, some 1, false⟩] =
      .ok [⟨0, true, false, false⟩, ⟨1, true, true, false⟩] := by
  refine ⟨?_, ?_, ?_, rfl⟩
  · rintro st ⟨mk, v, c⟩ hm hflag
    cases hm
    by_cases h1 : st.saw_end_position_only_marker = true
    · exact ⟨"multiple \"end position-only\" markers found", by simp [stepOne, h1]⟩
    · have h2 : st.saw_begin_keyword_only_marker = true := by
        rcases hflag with h | h
        · exact absurd h h1
        · exact h
      refine ⟨"\"end position-only\" marker found after \"begin keyword-only\" marker", ?_⟩
      simp [stepOne, h1, h2]
  · rintro st ⟨mk, v, c⟩ hm h1 h2
    cases hm
    simp [stepOne, h1, h2]
  · rintro st st' ⟨mk, v, c⟩ hm hok
    cases mk
    case slash => exact absurd rfl hm
    case doubleStar =>
      rcases v with _ | v
      · exact absurd hok (by simp [stepOne])
      · by_cases h : st.saw_extra_keywords = true
        · exact absurd hok (by simp [stepOne, h])
        · have hkw : st.saw_extra_keywords = false := by simpa using h
          simp [stepOne, hkw] at hok
          subst hok
          exact ⟨[⟨v, false, true, true⟩], by simp⟩
    case star =>
      rcases v with _ | v
      · by_cases h : st.saw_begin_keyword_only_marker = true
        · exact absurd hok (by simp [stepOne, h])
        · have hb : st.saw_begin_keyword_only_marker = false := by simpa using h
          simp [stepOne, hb] at hok
          subst hok
          exact ⟨[], by simp⟩
      · by_cases h1 : st.saw_extra_positionals = true
        · exact absurd hok (by simp [stepOne, h1])
        · by_cases h2 : st.saw_begin_keyword_only_marker = true
          · exact absurd hok (by simp [stepOne, h1, h2])
          · have hp : st.saw_extra_positionals = false := by simpa using h1
            have hb : st.saw_begin_keyword_only_marker = false := by simpa using h2
            simp [stepOne, hp, hb] at hok
            subst hok
            exact ⟨[⟨v, true, false, true⟩], by simp⟩
    case always =>
      rcases v with _ | v
      · exact absurd hok (by simp [stepOne])
      · simp only [stepOne, Except.ok.injEq, Option.some.injEq] at hok
        subst hok
        exact ⟨[⟨v, !st.saw_begin_keyword_only_marker, true, false⟩], by simp⟩

/-- C2 witness: on a state holding one ordinary argument and no flags set,
a slash step succeeds and rewrites that argument to positional-only. -/
theorem slash_marker_spec_witness :
    stepOne ⟨[⟨0, true, true, false⟩], false, false, false, false⟩ ⟨.slash, none, true⟩ =
      .ok (some ⟨[⟨0, true, false, false⟩], true, false, false, false⟩) :=
  slash_marker_spec.2.1 ⟨[⟨0, true, true, false⟩], false, false, false, false⟩
    ⟨.slash, none, true⟩ rfl rfl rfl

/-- C7: in `ArgumentList.parse`, a `*` marker (with or without a following
variable) opens keyword-only mode when it is not a duplicate; every plain
argument is recorded with `is_positional = !saw_begin_keyword_only_marker`
and `is_keyword = true`, so plain arguments before the marker are
positional+keyword and plain arguments after it are keyword-only; a second
`*` marker anywhere is a fatal error.  Parsing `a, *, b` (variables 0 and
1) yields `a` positional+keyword and `b` keyword-only. -/
theorem star_marker_spec :
    (∀ (st : ALState) (step : Step), step.marker = .star →
      st.saw_begin_keyword_only_marker = false →
      (step.varName = none ∨ st.saw_extra_positionals = false) →
      ∃ st', stepOne st step = .ok (some st') ∧
        st'.saw_begin_keyword_only_marker = true) ∧
    (∀ (st : ALState) (step : Step), step.marker = .star →
      st.saw_begin_keyword_only_marker = true →
      ∃ m, stepOne st step = .error (.argList m)) ∧
    (∀ (st : ALState) (step : Step) (v : Nat), step.marker = .always →
      step.varName = some v →
      stepOne st step = .ok (some { st with arguments := st.arguments ++
        [(⟨v, !st.saw_begin_keyword_only_marker, true, false⟩ : Argument)] })) ∧
    ArgumentList.parse
        [⟨.always, some 0, true⟩, ⟨.star, none, true⟩, ⟨.always, some 1, false⟩] =
      .ok [⟨0, true, true, false⟩, ⟨1, false, true, false⟩] := by
  refine ⟨?_, ?_, ?_, rfl⟩
  · rintro st ⟨mk, v, c⟩ hm hbegin hv
    cases hm
    rcases v with _ | v
    · refine ⟨{ st with saw_begin_keyword_only_marker := true }, ?_, rfl⟩
      simp [stepOne, hbegin]
    · have hpos : st.saw_extra_positionals = false := by
        rcases hv with h | h
        · exact absurd h (by simp)
        · exact h
      refine ⟨{ st with
        saw_extra_positionals := true,
        arguments := st.arguments ++ [(⟨v, true, false, true⟩ : Argument)],
        saw_begin_keyword_only_marker := true }, ?_, rfl⟩
      simp [stepOne, hpos, hbegin]
  · rintro st ⟨mk, v, c⟩ hm hbegin
    cases hm
    rcases v with _ | v
    · exact ⟨"multiple \"begin keyword-only\" markers found", by simp [stepOne, hbegin]⟩
    · by_cases hpos : st.saw_extra_positionals = true
      · exact ⟨"multiple \"extra positional\" arguments found", by simp [stepOne, hpos]⟩
      · exact ⟨"multiple \"begin keyword-only\" markers found",
          by simp [stepOne, hpos, hbegin]⟩
  · rintro st ⟨mk, v, c⟩ w hm hv
    cases hm
    cases hv
    rfl

/-- C7 witness: a plain argument parsed after keyword-only mode opened is
recorded as keyword-only (not positional). -/
theorem star_marker_spec_witness :
    stepOne ⟨[], false, true, false, false⟩ ⟨.always, some 5, true⟩ =
      .ok (some ⟨[⟨5, false, true, false⟩], false, true, false, false⟩) :=
  star_marker_spec.2.2.1 ⟨[], false, true, false, false⟩ ⟨.always, some 5, true⟩ 5 rfl rfl

/-- C8: in `ArgumentList.parse`, when the `**` marker is matched and no
variable follows, the parse fails with the fatal (hard, engine-propagated)
error "expected Variable"; when a variable follows it is appended with
`is_keyword = true` and `is_extra = true`, and a second `**` is the fatal
error "multiple \"extra keyword\" arguments found". -/
theorem double_star_marker_spec :
    (∀ (st : ALState) (step : Step), step.marker = .doubleStar →
      step.varName = none →
      stepOne st step = .error (.argList "expected Variable")) ∧
    ParseError.isHard (.argList "expected Variable") = true ∧
    (∀ (st : ALState) (step : Step) (v : Nat), step.marker = .doubleStar →
      step.varName = some v → st.saw_extra_keywords = false →
      stepOne st step = .ok (some { st with
        saw_extra_keywords := true,
        arguments := st.arguments ++ [(⟨v, false, true, true⟩ : Argument)] })) ∧
    (∀ (st : ALState) (step : Step) (v : Nat), step.marker = .doubleStar →
      step.varName = some v → st.saw_extra_keywords = true →
      stepOne st step = .error (.argList "multiple \"extra keyword\" arguments found")) := by
  refine ⟨?_, rfl, ?_, ?_⟩
  · rintro st ⟨mk, v, c⟩ hm hv
    cases hm
    cases hv
    rfl
  · rintro st ⟨mk, v, c⟩ w hm hv hkw
    cases hm
    cases hv
    simp [stepOne, hkw]
  · rintro st ⟨mk, v, c⟩ w hm hv hkw
    cases hm
    cases hv
    simp [stepOne, hkw]

/-- C8 witness: `**` with no following variable is the hard error
"expected Variable". -/
theorem double_star_marker_spec_witness :
    stepOne ⟨[], false, false, false, false⟩ ⟨.doubleStar, none, true⟩ =
      .error (.argList "expected Variable") :=
  double_star_marker_spec.1 ⟨[], false, false, false, false⟩
    ⟨.doubleStar, none, true⟩ rfl rfl

end Compiler
